import Mathlib

/-!
# Verification of the kin-spark per-turn pipeline

Shallow embedding of the Spark conversational serving layer:
the sliding-window rate limiter, widget API-key extraction, the
pre-flight classifier's fail-open combinator, the prompt-budget
trimming step with clean-boundary truncation, the LLM client's
fallback behaviour, the orchestrator's SSE event trace, and the
session store's resolve/end transitions.

Time values (monotonic-clock seconds, wall-clock instants) are
modelled as integers; every property proved is order-theoretic, so
nothing depends on the density of the clock's value domain.
Python strings are modelled as `String`
except in the truncation code, where `List Char` mirrors python's
index-based slicing and `rfind`.
-/

namespace Spark

/-! ## Rate limiter (src/api/app/services/spark/rate_limiter.py)

A key's window is the list of admitted-request timestamps, newest
last, exactly as the python list.  The windows map is a total
function from key strings to windows (absent key = `[]`, matching
`defaultdict(list)`). -/

/-- One key's admission step: prune entries older than 60 s, reject if
the remaining count reaches the limit, otherwise append `now`.
Mirrors the body of `SparkRateLimiter.check` for a single key. -/
def rlCheck (window : List ℤ) (now : ℤ) (rpmLimit : ℕ) : Bool × List ℤ :=
  let pruned := window.filter (fun t => now - 60 < t)
  if rpmLimit ≤ pruned.length then (false, pruned)
  else (true, pruned ++ [now])

/-- Model of `SparkRateLimiter.check`: the full map-level step, keyed by
`f"{client_id}:{ip}"`.  Returns the admit decision and the updated
windows map; the pruned list is written back even on rejection. -/
def SparkRateLimiter.check (windows : String → List ℤ) (clientId ip : String)
    (now : ℤ) (rpmLimit : ℕ) : Bool × (String → List ℤ) :=
  let key := clientId ++ ":" ++ ip
  let res := rlCheck (windows key) now rpmLimit
  (res.1, fun k => if k = key then res.2 else windows k)

/-- Run a sequence of admission attempts at the given times against a
single key's window, collecting the decisions and the final window. -/
def rlRun (times : List ℤ) (rpmLimit : ℕ) (window : List ℤ) : List Bool × List ℤ :=
  match times with
  | [] => ([], window)
  | t :: ts =>
    let step := rlCheck window t rpmLimit
    let rest := rlRun ts rpmLimit step.2
    (step.1 :: rest.1, rest.2)

/-! ## Widget API-key extraction (src/api/app/services/spark/auth.py)

Python `str.startswith` and slicing act on code points; both are
modelled on the string's underlying character list so that concrete
instances evaluate by kernel reduction. -/

/-- Python `s.startswith(p)` on code points. -/
def str_startswith (s p : String) : Bool :=
  decide (s.data.take p.data.length = p.data)

/-- Python `s[n:]` on code points. -/
def str_dropn (s : String) (n : ℕ) : String :=
  String.mk (s.data.drop n)

/-- The `X-Spark-Key` fallback of `_extract_api_key`: python's
`if spark_key:` treats an empty header value as absent. -/
def sparkKeyFallback (xSparkKey : Option String) : Option String :=
  match xSparkKey with
  | some k => if k = "" then none else some k
  | none => none

/-- Model of `_extract_api_key`: prefer `Authorization: Bearer <key>` (python
truthiness plus `startswith("Bearer ")`), else the `X-Spark-Key`
header; `none` models the 401 raised when neither yields a key. -/
def extract_api_key (authorization xSparkKey : Option String) : Option String :=
  match authorization with
  | some a =>
    if a ≠ "" ∧ str_startswith a "Bearer " = true then some (str_dropn a 7)
    else sparkKeyFallback xSparkKey
  | none => sparkKeyFallback xSparkKey

/-! ## Clean-boundary truncation (src/api/app/services/spark/settling.py)

`_trim_component` works on python strings through `len`, slicing and
`str.rfind`; texts are modelled as `List Char` so those operations are
`length`, `take` and a last-occurrence search. -/

/-- Occurrence test:  the pattern occurs at index `i`, fully inside
`text` (python substring containment at a start index). -/
def matchesAt (text pat : List Char) (i : ℕ) : Bool :=
  decide ((text.drop i).take pat.length = pat)

/-- Search downward from index `n` for the greatest index satisfying
`p` (the common core of python's `str.rfind`). -/
def rfindAux (p : ℕ → Bool) : ℕ → Option ℕ
  | 0 => if p 0 then some 0 else none
  | i + 1 => if p (i + 1) then some (i + 1) else rfindAux p i

/-- The search `rfindAux` packaged with python's `-1` not-found convention. -/
def rfindZ (p : ℕ → Bool) (n : ℕ) : ℤ :=
  ((rfindAux p n).map (fun i => (i : ℤ))).getD (-1)

/-- Python `text.rfind(pat)`: greatest start index of `pat` in `text`,
`-1` if absent. -/
def rfindI (text pat : List Char) : ℤ :=
  rfindZ (matchesAt text pat) text.length

/-- Model of `_trim_component`: truncate to `char_budget` on a clean boundary —
last `"\n\n"` at positive index in the capped prefix, else the best of
the sentinels `". "`, `"? "`, `"! "`, `".\n"` at positive index, else a
hard cut with `"..."` appended.  Text within budget is unchanged. -/
def trim_component (text : List Char) (char_budget : ℕ) : List Char :=
  if text.length ≤ char_budget then text
  else
    let candidate := text.take char_budget
    let paraIdx := rfindI candidate ['\n', '\n']
    if 0 < paraIdx then text.take paraIdx.toNat
    else
      let best1 := max (max (rfindI candidate ['.', ' ']) (rfindI candidate ['?', ' ']))
        (rfindI candidate ['!', ' '])
      let bestSent := max best1 (rfindI candidate ['.', '\n'])
      if 0 < bestSent then text.take (bestSent.toNat + 1)
      else text.take char_budget ++ ['.', '.', '.']

/-- The truncation rule exactly as the claim words it (for comparison
with `trim_component`): cut at the last double-newline before the cap
whenever one exists, else at the last sentence terminator before the
cap, where a terminator is `.`, `?` or `!` followed by a space or a
newline, else hard-cut with an ellipsis. -/
def claimedTrimComponent (text : List Char) (cap : ℕ) : List Char :=
  if text.length ≤ cap then text
  else
    let candidate := text.take cap
    let paraIdx := rfindI candidate ['\n', '\n']
    if 0 ≤ paraIdx then text.take paraIdx.toNat
    else
      let best :=
        ([['.', ' '], ['.', '\n'], ['?', ' '], ['?', '\n'], ['!', ' '], ['!', '\n']].map
          (rfindI candidate)).foldl max (-1)
      if 0 ≤ best then text.take (best.toNat + 1)
      else text.take cap ++ ['.', '.', '.']

/-- Greatest index below `n + 1` where `pat` occurs in `text`, computed
by an upward scan (used by the amended statement of the truncation
rule, independently of `rfindAux`). -/
def lastMatch (text pat : List Char) : Option ℕ :=
  ((List.range (text.length + 1)).filter (fun i => matchesAt text pat i)).getLast?

/-- Greatest index where one of the four code sentinels (`". "`,
`"? "`, `"! "`, `".\n"`) occurs, by the same upward scan. -/
def lastSentinel (cand : List Char) : Option ℕ :=
  ((List.range (cand.length + 1)).filter (fun i =>
    matchesAt cand ['.', ' '] i || matchesAt cand ['?', ' '] i ||
    matchesAt cand ['!', ' '] i || matchesAt cand ['.', '\n'] i)).getLast?

/-- Python's `-1` convention for the upward last-occurrence scans. -/
def lastZ (o : Option ℕ) : ℤ :=
  (o.map (fun i => (i : ℤ))).getD (-1)

/-- The amended truncation rule: like the claim, but a boundary is
used only at a positive index, and the recognized sentence terminators
are exactly `". "`, `"? "`, `"! "` and `".\n"` (`"?\n"` and `"!\n"` do
not count).  The boundary positions are defined through the upward
scans `lastMatch` / `lastSentinel`. -/
def amendedTrimComponent (text : List Char) (cap : ℕ) : List Char :=
  if text.length ≤ cap then text
  else
    let cand := text.take cap
    let paraIdx := lastZ (lastMatch cand ['\n', '\n'])
    if 0 < paraIdx then text.take paraIdx.toNat
    else
      let bestSent := lastZ (lastSentinel cand)
      if 0 < bestSent then text.take (bestSent.toNat + 1)
      else text.take cap ++ ['.', '.', '.']

/-! ## Token-budget trimming (src/api/app/services/spark/settling.py)

`_trim_to_budget` receives `(name, priority, content)` tuples, builds
a `name → content` dict, and trims P4 then P3 components to half then
a quarter of their original length until the estimated total fits the
budget.  The dict is modelled as an association list in component
order; all call sites use distinct names, and the theorems assume
name-distinctness explicitly. -/

/-- Constant `_TOKEN_BUDGET`. -/
def TOKEN_BUDGET : ℕ := 12000

/-- Model of `_estimate_tokens`: `len(text) // 4`. -/
def estimate_tokens (text : List Char) : ℕ := text.length / 4

/-- One `(name, priority, content)` prompt component. -/
structure Component where
  name : String
  priority : ℕ
  content : List Char

/-- The working `name → content` dict of `_trim_to_budget`. -/
abbrev TrimState := List (String × List Char)

/-- Model of `_total_tokens`: estimated token total over the dict's values. -/
def tsTotal (res : TrimState) : ℕ :=
  (res.map (fun p => estimate_tokens p.2)).sum

/-- Write `result[name] = content`. -/
def tsSet (res : TrimState) (n : String) (c : List Char) : TrimState :=
  res.map (fun p => if p.1 = n then (p.1, c) else p)

/-- One priority pass of `_trim_to_budget`: for each component of the
given priority with nonempty content, try half then quarter of its
original length, returning early (flag `true`) as soon as the total
fits the budget. -/
def trimPass (comps : List Component) (pr : ℕ) (res : TrimState) : TrimState × Bool :=
  match comps with
  | [] => (res, false)
  | c :: rest =>
    if c.priority = pr ∧ c.content ≠ [] then
      let r1 := tsSet res c.name (trim_component c.content (c.content.length / 2))
      if tsTotal r1 ≤ TOKEN_BUDGET then (r1, true)
      else
        let r2 := tsSet r1 c.name (trim_component c.content (c.content.length / 4))
        if tsTotal r2 ≤ TOKEN_BUDGET then (r2, true)
        else trimPass rest pr r2
    else trimPass rest pr res

/-- Model of `_trim_to_budget`: within budget return unchanged; else trim P4
components, then P3; the boolean records whether the over-budget
warning is logged on the fall-through path. -/
def trim_to_budget (comps : List Component) : TrimState × Bool :=
  if tsTotal (comps.map (fun c => (c.name, c.content))) ≤ TOKEN_BUDGET then
    (comps.map (fun c => (c.name, c.content)), false)
  else
    let p4 := trimPass comps 4 (comps.map (fun c => (c.name, c.content)))
    if p4.2 then (p4.1, false)
    else
      let p3 := trimPass comps 3 p4.1
      if p3.2 then (p3.1, false)
      else (p3.1, decide (TOKEN_BUDGET < tsTotal p3.1))

/-- The state in which every nonempty component of the given priority
has been cut to a quarter of its original length — where a pass ends
when no intermediate total ever fits the budget. -/
def quarterAll (comps : List Component) (pr : ℕ) (res : TrimState) : TrimState :=
  match comps with
  | [] => res
  | c :: rest =>
    if c.priority = pr ∧ c.content ≠ [] then
      quarterAll rest pr (tsSet res c.name (trim_component c.content (c.content.length / 4)))
    else quarterAll rest pr res

/-- The maximally trimmed state: every nonempty P4 and P3 component
quarter-capped, P1/P2 untouched. -/
def maxTrimmed (comps : List Component) : TrimState :=
  quarterAll comps 3 (quarterAll comps 4 (comps.map (fun c => (c.name, c.content))))

/-- An in-place dict read, for stating which entries a pass leaves
untouched. -/
def tsGet (res : TrimState) (n : String) : Option (List Char) :=
  match res with
  | [] => none
  | p :: rest => if p.1 = n then some p.2 else tsGet rest n

/-! ## Pre-flight classifier (src/api/app/services/spark/preflight.py)

Each branch's underlying I/O (classifier call plus JSON parse,
embedding plus the two vector-search RPCs) is represented by its
outcome: `Except` is an exception, `ok` the parsed value.  Parsed JSON
fields use `Option` for python's `dict.get` defaults. -/

/-- A row returned by the vector-search RPCs / used in doc context.
Dict fields accessed with `.get(...)` are `Option`-valued. -/
structure Chunk where
  title : Option String := none
  content : String := ""
  similarity : Option ℚ := none
  category : Option String := none
  subcategory : Option String := none

/-- Model of `PreflightResult` (src/api/app/models/spark.py). -/
structure PreflightResult where
  boundary_signal : Option String
  terminate : Bool
  in_scope : Bool
  retrieved_chunks : List Chunk
  conversation_state : String

/-- The boundary classifier's parsed JSON: `parsed.get("boundary_signal")`
and `parsed.get("terminate", False)`. -/
structure BoundaryParse where
  boundary_signal : Option String
  terminate : Option Bool

/-- Model of `_pass_boundary`: returns the parsed signal and terminate flag, or
the safe default `(null, false)` on any parse or LLM error. -/
def pass_boundary (call : Except String BoundaryParse) : Option String × Bool :=
  match call with
  | .ok p => (p.boundary_signal, p.terminate.getD false)
  | .error _ => (none, false)

/-- Model of `_pass_state`: the parsed `conversation_state` with default
`"active"`, or `"active"` on any parse or LLM error. -/
def pass_state (call : Except String (Option String)) : String :=
  match call with
  | .ok s => s.getD "active"
  | .error _ => "active"

/-- Model of `_branch_retrieval`: merge the knowledge and document result sets,
sort descending by `similarity` (missing similarity counts as 0,
stable as python's `list.sort`), take the top `k`; `[]` on any error. -/
def branch_retrieval (k : ℕ) (call : Except String (List Chunk × List Chunk)) :
    List Chunk :=
  match call with
  | .ok res =>
    let allChunks := res.1 ++ res.2
    (allChunks.insertionSort
      (fun a b => b.similarity.getD 0 ≤ a.similarity.getD 0)).take k
  | .error _ => []

/-- Model of `run_preflight`: combine the three branch outcomes;
`in_scope = len(chunks) > 0`. -/
def run_preflight (k : ℕ) (bCall : Except String BoundaryParse)
    (sCall : Except String (Option String))
    (rCall : Except String (List Chunk × List Chunk)) : PreflightResult :=
  let b := pass_boundary bCall
  let s := pass_state sCall
  let chunks := branch_retrieval k rCall
  { boundary_signal := b.1
    terminate := b.2
    in_scope := decide (0 < chunks.length)
    retrieved_chunks := chunks
    conversation_state := s }

/-! ## Session store

The orchestrator and the spark router import
`app.services.spark.session` of the api package; that module is not
part of this source snapshot — only its callers
(`src/api/app/services/spark/core.py`, `src/api/app/routers/spark.py`)
and its tests (`src/api/tests/test_admin_router.py`) are.  `get_session`
and `end_session` are therefore modelled from the spec (§4.2 `resolve`
and `end`); the api test suite asserts exactly this behaviour
(outcome wiring and expiry → abandoned). -/

/-- A `spark_conversations` row (the fields the session operations
touch). -/
structure Conversation where
  id : ℕ
  session_token : String
  ip_address : String
  turn_count : ℕ
  state : String
  outcome : Option String
  expires_at : ℤ
  ended_at : Option ℤ
deriving DecidableEq

/-- Modelled from the spec: `resolve(token, ip) → conversation | null` —
lookup by token filtered on `state=active`; IP must match (else null);
if `now > expires_at`, transition the row to `expired` with
`outcome=abandoned`, `ended_at=now`, and return null.  (The api
package's `session.py::get_session` is absent from this snapshot.) -/
def get_session (store : List Conversation) (token ip : String) (now : ℤ) :
    Option Conversation × List Conversation :=
  match store.find? (fun c =>
      decide (c.session_token = token) && decide (c.state = "active")) with
  | none => (none, store)
  | some row =>
    if row.ip_address ≠ ip then (none, store)
    else if row.expires_at < now then
      (none, store.map (fun c =>
        if c.id = row.id then
          { c with state := "expired", outcome := some "abandoned", ended_at := some now }
        else c))
    else (some row, store)

/-- Modelled from the spec: `end(id, state, outcome?)` — terminal
transition setting `ended_at`; the outcome column is written only when
an outcome is provided.  (The api package's `session.py::end_session`
is absent from this snapshot.) -/
def end_session (store : List Conversation) (cid : ℕ) (state : String)
    (outcome : Option String) (now : ℤ) : List Conversation :=
  store.map (fun c =>
    if c.id = cid then
      { c with
        state := state
        outcome := match outcome with | some oc => some oc | none => c.outcome
        ended_at := some now }
    else c)

/-! ## LLM client (src/api/app/services/llm.py)

The two litellm entry points are represented by an oracle: a
per-model outcome for non-streaming calls, and the chunk/error
behaviour of the single streaming call a pipeline run makes.  The
functions additionally return the list of provider calls they issue,
in order, so fallback behaviour is visible in the result. -/

/-- Model configuration relevant to fallback selection. -/
structure LlmSettings where
  spark_primary_model : String
  spark_fallback_model : String

/-- Model of `_get_fallback`: only the primary chat model has a fallback. -/
def get_fallback (st : LlmSettings) (model : String) : Option String :=
  if model = st.spark_primary_model then some st.spark_fallback_model else none

/-- The per-call parameters `complete`/`stream` forward to litellm. -/
structure LlmParams where
  messages : List (String × String)
  temperature : ℚ
  max_tokens : Option ℕ
  timeout : ℕ

/-- One litellm invocation, with the parameters it received. -/
inductive LlmCall
  | streamCall (model : String) (p : LlmParams)
  | completeCall (model : String) (p : LlmParams) (responseFormat : Option String)

/-- The provider's behaviour: outcome of a non-streaming call per
model, and the deltas / terminal error of the one streaming call. -/
structure LlmOracle where
  acomplete : String → Except String String
  astream_chunks : List String
  astream_err : Option String

/-- Model of `llm.complete`: call the model; on any exception try the fallback
(if configured) once; if that also fails re-raise the original
exception. -/
def complete (st : LlmSettings) (o : LlmOracle) (model : String) (p : LlmParams)
    (responseFormat : Option String) : Except String String × List LlmCall :=
  match o.acomplete model with
  | .ok r => (.ok r, [.completeCall model p responseFormat])
  | .error e =>
    match get_fallback st model with
    | some fb =>
      match o.acomplete fb with
      | .ok r => (.ok r, [.completeCall model p responseFormat, .completeCall fb p responseFormat])
      | .error _ =>
        (.error e, [.completeCall model p responseFormat, .completeCall fb p responseFormat])
    | none => (.error e, [.completeCall model p responseFormat])

/-- Model of `llm.stream`: yield each nonempty delta; on any exception fall
back (primary only) to one non-streaming `complete` with the same
parameters, yielding a nonempty result as one extra delta; if the
fallback fails too, the original exception propagates after the
already-yielded deltas. -/
def stream (st : LlmSettings) (o : LlmOracle) (model : String) (p : LlmParams) :
    (List String × Option String) × List LlmCall :=
  match o.astream_err with
  | none => ((o.astream_chunks.filter (fun c => c ≠ ""), none), [.streamCall model p])
  | some e =>
    match get_fallback st model with
    | some fb =>
      match complete st o fb p none with
      | (.ok r, calls) =>
        ((o.astream_chunks.filter (fun c => c ≠ "") ++ (if r = "" then [] else [r]), none),
          .streamCall model p :: calls)
      | (.error _, calls) =>
        ((o.astream_chunks.filter (fun c => c ≠ ""), some e), .streamCall model p :: calls)
    | none => ((o.astream_chunks.filter (fun c => c ≠ ""), some e), [.streamCall model p])

/-- Concrete model configuration for the C8 instances. -/
def c8st : LlmSettings := ⟨"p", "f"⟩

/-- Concrete call parameters for the C8 instances. -/
def c8params : LlmParams := ⟨[("user", "hello")], 1, some 1024, 30⟩

/-- Concrete provider behaviour: the streaming call fails immediately
and the fallback's non-streaming result is the empty string. -/
def c8oracle : LlmOracle :=
  ⟨fun mdl => if mdl = "f" then .ok "" else .error "boom", [], some "boom"⟩

/-! ## Orchestrator (src/api/app/services/spark/core.py)

`process_message` is an async generator with awaited side effects; it
is embedded as a function from its resolved inputs and dependency
outcomes to the ordered trace of its effects: SSE yields, message
stores, session transitions, the turn increment, the streaming call,
and fire-and-forget task spawns. -/

/-- JSON scalar values appearing in SSE event payloads. -/
inductive JVal
  | jb (b : Bool)
  | ji (i : ℤ)
  | js (s : String)
deriving DecidableEq

/-- One observable effect of a `process_message` run, in order. -/
inductive Ev
  | sse (name : String) (data : List (String × JVal))
  | storeMsg (role content : String)
  | storeAssistantNormalized (raw : String)
  | endSess (state : String) (outcome : Option String)
  | incTurn
  | incBoundary
  | llmStream (model : String)
  | analytics (eventType : String)
deriving DecidableEq

/-- The configuration values the orchestrator reads. -/
structure CoreSettings where
  spark_min_turns_before_winddown : ℕ
  spark_wind_down_turns : ℕ
  spark_primary_model : String

/-- Model of `_should_wind_down`. -/
def should_wind_down (st : CoreSettings) (turn_count max_turns : ℕ) : Bool :=
  decide (st.spark_min_turns_before_winddown ≤ turn_count) &&
    decide ((max_turns : ℤ) - turn_count ≤ (st.spark_wind_down_turns : ℤ))

/-- The `settling_config` keys the orchestrator reads. -/
structure SettlingCore where
  lead_capture_prompt : Option String
  jailbreak_responses : List (String × String)

/-- The `jailbreak_responses[tier]` lookup. -/
def jailbreak_lookup (jail : List (String × String)) (tier : String) : Option String :=
  match jail with
  | [] => none
  | q :: rest => if q.1 = tier then some q.2 else jailbreak_lookup rest tier

/-- Model of `_deflection_response` (gate mode): tenant override by tier, else
the built-in default for the tier (unknown tiers fall back to
subtle). -/
def deflection_response (rejection_tier : Option String) (cfg : SettlingCore) : String :=
  let tier := match rejection_tier with
    | none => "subtle"
    | some s => if s = "" then "subtle" else s
  match jailbreak_lookup cfg.jailbreak_responses tier with
  | some r => r
  | none =>
    if tier = "firm" then
      "I'm not able to do that. I'm here to help with genuine questions. Is there something real I can assist you with?"
    else if tier = "terminate" then
      "I'm going to wrap up this conversation. If you have genuine questions in the future, feel free to start a new chat."
    else
      "I appreciate the creativity, but I'm here to help with questions about what we do. What can I actually help you with?"

/-- The legacy tier derived from the preflight result (gate mode). -/
def tier_of (p : PreflightResult) : String :=
  if p.terminate then "terminate"
  else if p.boundary_signal = some "identity_breaking" ∨
      p.boundary_signal = some "extraction_framing" ∨
      p.boundary_signal = some "adversarial_stress" then "firm"
  else "subtle"

/-- The resolved arguments of one `process_message` call. -/
structure PMInput where
  message : String
  cfg : SettlingCore
  max_turns : ℕ
  mode : String
  settings : CoreSettings

/-- Outcomes of the orchestrator's awaited dependencies for one run:
the preflight result (or its total failure), the turn counter's new
value, and the deltas / failure of the primary stream. -/
structure PMOracle where
  preflight : Except String PreflightResult
  new_turn_count : ℕ
  stream_chunks : List String
  stream_ok : Bool

/-- Default farewell when `lead_capture_prompt` is unset. -/
def farewell_default : String :=
  "Thanks for chatting! If you'd like to continue the conversation, leave your email and we'll be in touch."

/-- Trace of `for word in text.split(" "): yield token {"text": word + " "}`. -/
def token_events (s : String) : List Ev :=
  (s.splitOn " ").map (fun w => Ev.sse "token" [("text", JVal.js (w ++ " "))])

/-- Steps 4–16 of the pipeline, shared by both preflight modes once
the safety gate has passed: turn increment, max-turns farewell, or
prompt build + stream + post-processing. -/
def after_safety (inp : PMInput) (o : PMOracle) (p : PreflightResult) : List Ev :=
  let wind_down := should_wind_down inp.settings o.new_turn_count inp.max_turns
  let turns_remaining : ℤ := (inp.max_turns : ℤ) - (o.new_turn_count : ℤ)
  Ev.incTurn ::
    (if turns_remaining ≤ 0 then
      [Ev.storeMsg "user" inp.message,
       Ev.storeMsg "assistant" (inp.cfg.lead_capture_prompt.getD farewell_default)]
      ++ token_events (inp.cfg.lead_capture_prompt.getD farewell_default)
      ++ [Ev.endSess "completed" (some "completed"),
          Ev.sse "done" [("turns_remaining", JVal.ji 0)]]
    else
      [Ev.storeMsg "user" inp.message, Ev.llmStream inp.settings.spark_primary_model]
      ++ o.stream_chunks.map (fun c => Ev.sse "token" [("text", JVal.js c)])
      ++ (if o.stream_ok then
            [Ev.storeAssistantNormalized (String.join o.stream_chunks)]
            ++ (if wind_down then
                  [Ev.sse "wind_down" [("turns_remaining", JVal.ji turns_remaining)]]
                else [])
            ++ [Ev.analytics (if o.new_turn_count = 1 then "first_message" else "message")]
            ++ (if p.in_scope then [] else [Ev.analytics "out_of_scope"])
            ++ [Ev.sse "done" [("turns_remaining", JVal.ji turns_remaining)]]
          else [Ev.sse "error" [("message", JVal.js "I hit a snag. Please try again.")]]))

/-- Model of `process_message`: the ordered effect trace of one run.  The
top-level branches mirror the source: preflight total failure → one
error event; gate mode with a signal or terminate → canned deflection;
signals mode terminate → store user, end terminated, done; otherwise
the shared tail pipeline (with the fire-and-forget boundary-counter
increment in signals mode). -/
def process_message (inp : PMInput) (o : PMOracle) : List Ev :=
  match o.preflight with
  | .error _ =>
    [Ev.sse "error" [("message", JVal.js "Something went wrong. Please try again.")]]
  | .ok p =>
    if inp.mode = "gate" then
      if p.boundary_signal ≠ none ∨ p.terminate = true then
        [Ev.storeMsg "user" inp.message,
         Ev.storeMsg "assistant" (deflection_response (some (tier_of p)) inp.cfg)]
        ++ token_events (deflection_response (some (tier_of p)) inp.cfg)
        ++ [Ev.analytics "jailbreak_blocked"]
        ++ (if p.terminate then [Ev.endSess "terminated" (some "terminated")] else [])
        ++ [Ev.sse "done" []]
      else after_safety inp o p
    else
      if p.terminate then
        [Ev.storeMsg "user" inp.message,
         Ev.endSess "terminated" (some "terminated"),
         Ev.sse "done" [("terminated", JVal.jb true)]]
      else
        (if p.boundary_signal.isSome then [Ev.incBoundary] else []) ++ after_safety inp o p

/-- The SSE projection of an effect trace. -/
def sseOf (t : List Ev) : List (String × List (String × JVal)) :=
  t.filterMap (fun e => match e with | Ev.sse n d => some (n, d) | _ => none)

/-- The two terminal SSE event names. -/
def isTerminalName (s : String) : Bool := s = "done" || s = "error"

/-- Whether an `Except` outcome is an exception. -/
def exceptIsError (e : Except String PreflightResult) : Bool :=
  match e with
  | .error _ => true
  | .ok _ => false

end Spark

namespace Spark

/-! ## Rate-limiter theorems -/

/-- An admission run over times that all lie within one 60 s window
admits every request and accumulates exactly those timestamps: no
pruning fires and every length check stays below the limit. -/
theorem rlRun_admits (ts : List ℤ) (L : ℕ) (w0 : List ℤ)
    (h1 : ∀ s ∈ w0, ∀ t ∈ ts, s ≤ t ∧ t - s < 60)
    (h2 : ts.Sorted (· ≤ ·))
    (h3 : ∀ a ∈ ts, ∀ b ∈ ts, a ≤ b → b - a < 60)
    (h4 : w0.length + ts.length ≤ L) :
    rlRun ts L w0 = (List.replicate ts.length true, w0 ++ ts) := by
  induction ts generalizing w0 with
  | nil => simp [rlRun]
  | cons t ts ih =>
    obtain ⟨hle, hsorted⟩ := List.sorted_cons.mp h2
    have hfilter : w0.filter (fun s => decide (t - 60 < s)) = w0 := by
      rw [List.filter_eq_self]
      intro s hs
      have := (h1 s hs t (by simp)).2
      simp only [decide_eq_true_eq]
      linarith
    have hlen : w0.length < L := by
      simp only [List.length_cons] at h4; omega
    have hstep : rlCheck w0 t L = (true, w0 ++ [t]) := by
      unfold rlCheck
      simp only [hfilter, if_neg (Nat.not_le.mpr hlen)]
    have ihres := ih (w0 ++ [t])
      (by
        intro s hs t' ht'
        rcases List.mem_append.mp hs with hs | hs
        · exact h1 s hs t' (by simp [ht'])
        · have hst : s = t := by simpa using hs
          subst hst
          exact ⟨hle t' ht', h3 s (by simp) t' (by simp [ht']) (hle t' ht')⟩)
      hsorted
      (by
        intro a ha b hb hab
        exact h3 a (by simp [ha]) b (by simp [hb]) hab)
      (by simp only [List.length_append, List.length_cons, List.length_nil] at h4 ⊢; omega)
    unfold rlRun
    rw [hstep]
    simp only [ihres, List.length_cons, List.replicate_succ]
    simp [List.append_assoc]

/-- C2: rate-limit exactness.  Starting from an empty window, `L ≥ 1`
admissions at nondecreasing times all within 60 s of the next attempt
all succeed; the `(L+1)`-th attempt at `tN` is rejected; and once more
than 60 s have passed since the oldest admitted timestamp, a further
admission succeeds again. -/
theorem rate_limit_exactness (L : ℕ) (ts : List ℤ) (tN now ohead : ℤ)
    (hL : 1 ≤ L) (hlen : ts.length = L)
    (hsorted : ts.Sorted (· ≤ ·))
    (hwin : ∀ t ∈ ts, t ≤ tN ∧ tN - t < 60)
    (hhead : ts.head? = some ohead)
    (hrec : 60 < now - ohead) :
    (rlRun ts L []).1 = List.replicate L true ∧
    (rlCheck (rlRun ts L []).2 tN L).1 = false ∧
    (rlCheck (rlRun ts L []).2 now L).1 = true := by
  have hspread : ∀ a ∈ ts, ∀ b ∈ ts, a ≤ b → b - a < 60 := by
    intro a ha b hb _
    have hb' := (hwin b hb).1
    have ha' := (hwin a ha).2
    linarith
  have hrun := rlRun_admits ts L []
    (by intro s hs; simp at hs) hsorted hspread (by simp [hlen])
  have hwindow : (rlRun ts L []).2 = ts := by rw [hrun]; simp
  refine ⟨by rw [hrun, hlen], ?_, ?_⟩
  · rw [hwindow]
    have hfilter : ts.filter (fun t => decide (tN - 60 < t)) = ts := by
      rw [List.filter_eq_self]
      intro t ht
      have := (hwin t ht).2
      simp only [decide_eq_true_eq]
      linarith
    unfold rlCheck
    simp only [hfilter, hlen, if_pos le_rfl]
  · rw [hwindow]
    rcases ts with _ | ⟨o, rest⟩
    · simp at hlen; omega
    · have ho : o = ohead := by simpa using hhead
      subst ho
      have hnotp : ¬ (now - 60 < o) := by linarith
      have hlenle : (rest.filter (fun t => decide (now - 60 < t))).length ≤ rest.length :=
        List.length_filter_le _ _
      have hcons : (o :: rest).filter (fun t => decide (now - 60 < t))
          = rest.filter (fun t => decide (now - 60 < t)) := by
        rw [List.filter_cons]
        simp [hnotp]
      have hlt : ((o :: rest).filter (fun t => decide (now - 60 < t))).length < L := by
        rw [hcons]
        simp only [List.length_cons] at hlen
        omega
      unfold rlCheck
      simp only [if_neg (Nat.not_le.mpr hlt)]

/-- C2 witness: with limit 2, two admissions at times 0 and 10 succeed,
a third at time 20 is rejected, and a later attempt at time 100 (more
than 60 s after the oldest stamp) succeeds. -/
theorem rate_limit_exactness_witness :
    (rlRun [(0 : ℤ), 10] 2 []).1 = List.replicate 2 true ∧
    (rlCheck (rlRun [(0 : ℤ), 10] 2 []).2 20 2).1 = false ∧
    (rlCheck (rlRun [(0 : ℤ), 10] 2 []).2 100 2).1 = true :=
  rate_limit_exactness 2 [0, 10] 20 100 0 (by decide) (by decide)
    (by decide) (by decide) (by decide) (by decide)

/-- C9: a rejected request never consumes quota.  On a `false` result
the stored window for the key is exactly the old window with the
stale entries pruned, and any other key's window is untouched. -/
theorem check_reject_frame (windows : String → List ℤ) (clientId ip : String)
    (now : ℤ) (rpmLimit : ℕ) (k : String)
    (hk : k ≠ clientId ++ ":" ++ ip)
    (hrej : (SparkRateLimiter.check windows clientId ip now rpmLimit).1 = false) :
    (SparkRateLimiter.check windows clientId ip now rpmLimit).2 (clientId ++ ":" ++ ip)
      = (windows (clientId ++ ":" ++ ip)).filter (fun t => now - 60 < t) ∧
    (SparkRateLimiter.check windows clientId ip now rpmLimit).2 k = windows k := by
  unfold SparkRateLimiter.check rlCheck at *
  by_cases h : rpmLimit ≤ ((windows (clientId ++ ":" ++ ip)).filter (fun t => now - 60 < t)).length
  · simp only [h, if_pos] at *
    refine ⟨by simp, ?_⟩
    simp [hk]
  · simp [h] at hrej

/-- C9 witness: a concrete rejected call leaves the key's window
pruned-only and another key's window unchanged. -/
theorem check_reject_frame_witness :
    (SparkRateLimiter.check (fun k => if k = "c" ++ ":" ++ "1.2.3.4" then [(0 : ℤ), 10] else [])
        "c" "1.2.3.4" 30 1).2 ("c" ++ ":" ++ "1.2.3.4") = [(0 : ℤ), 10] ∧
    (SparkRateLimiter.check (fun k => if k = "c" ++ ":" ++ "1.2.3.4" then [(0 : ℤ), 10] else [])
        "c" "1.2.3.4" 30 1).2 "other" = [] := by
  have h := check_reject_frame
    (fun k => if k = "c" ++ ":" ++ "1.2.3.4" then [(0 : ℤ), 10] else []) "c" "1.2.3.4" 30 1
    "other" (by decide) (by decide)
  refine ⟨?_, ?_⟩
  · rw [h.1]; decide
  · rw [h.2]; decide

/-! ## Auth header precedence -/

/-- C10: when both headers are present and the `Authorization` value
starts with `Bearer `, the key is taken from `Authorization` (its
remainder after the prefix) for every `X-Spark-Key` value; the
`X-Spark-Key` header is consulted exactly when `Authorization` is
absent or does not start with `Bearer `. -/
theorem extract_api_key_precedence (a b : String) (x x' : Option String)
    (hb : str_startswith a "Bearer " = true)
    (hbf : str_startswith b "Bearer " = false) :
    extract_api_key (some a) x = some (str_dropn a 7) ∧
    extract_api_key (some a) x' = extract_api_key (some a) x ∧
    extract_api_key (some b) x = sparkKeyFallback x ∧
    extract_api_key none x = sparkKeyFallback x := by
  have hne : a ≠ "" := by
    intro h
    subst h
    simp [str_startswith, String.data] at hb
  refine ⟨?_, ?_, ?_, rfl⟩
  · simp only [extract_api_key]
    rw [if_pos ⟨hne, hb⟩]
  · simp only [extract_api_key]
    rw [if_pos ⟨hne, hb⟩, if_pos ⟨hne, hb⟩]
  · simp only [extract_api_key]
    rw [if_neg]
    rintro ⟨-, hb'⟩
    rw [hbf] at hb'
    exact Bool.false_ne_true hb'

/-- C10 witness: with `Authorization: Bearer abc` and `X-Spark-Key: zzz`
the extracted key is `abc`, ignoring the `X-Spark-Key` value; with a
non-Bearer `Authorization` the fallback header is consulted. -/
theorem extract_api_key_precedence_witness :
    extract_api_key (some "Bearer abc") (some "zzz") = some "abc" ∧
    extract_api_key (some "Bearer abc") (some "other") =
      extract_api_key (some "Bearer abc") (some "zzz") ∧
    extract_api_key (some "Token q") (some "zzz") = sparkKeyFallback (some "zzz") ∧
    extract_api_key none (some "zzz") = sparkKeyFallback (some "zzz") := by
  have h := extract_api_key_precedence "Bearer abc" "Token q" (some "zzz") (some "other")
    (by decide) (by decide)
  refine ⟨?_, h.2.1, h.2.2.1, h.2.2.2⟩
  rw [h.1]
  rfl

/-! ## Pre-flight fail-open -/

/-- C4: each pre-flight branch fails open independently.  A failing
boundary call yields `boundary_signal = null, terminate = false`
while the state and retrieval fields still equal their own branch's
result; a failing state call yields `conversation_state = "active"`
with the other fields unaffected; a failing retrieval call yields
`retrieved_chunks = []` (hence `in_scope = false`) with the other
fields unaffected. -/
theorem preflight_fail_open (k : ℕ) (b : Except String BoundaryParse)
    (s : Except String (Option String))
    (r : Except String (List Chunk × List Chunk)) (eb es er : String) :
    ((run_preflight k (.error eb) s r).boundary_signal = none ∧
      (run_preflight k (.error eb) s r).terminate = false ∧
      (run_preflight k (.error eb) s r).conversation_state = pass_state s ∧
      (run_preflight k (.error eb) s r).retrieved_chunks = branch_retrieval k r) ∧
    ((run_preflight k b (.error es) r).conversation_state = "active" ∧
      (run_preflight k b (.error es) r).boundary_signal = (pass_boundary b).1 ∧
      (run_preflight k b (.error es) r).terminate = (pass_boundary b).2 ∧
      (run_preflight k b (.error es) r).retrieved_chunks = branch_retrieval k r) ∧
    ((run_preflight k b s (.error er)).retrieved_chunks = [] ∧
      (run_preflight k b s (.error er)).in_scope = false ∧
      (run_preflight k b s (.error er)).boundary_signal = (pass_boundary b).1 ∧
      (run_preflight k b s (.error er)).terminate = (pass_boundary b).2 ∧
      (run_preflight k b s (.error er)).conversation_state = pass_state s) :=
  ⟨⟨rfl, rfl, rfl, rfl⟩, ⟨rfl, rfl, rfl, rfl⟩, ⟨rfl, rfl, rfl, rfl, rfl⟩⟩

/-! ## Clean-boundary truncation: `rfind` theory -/

/-- The search `rfindAux` returns a greatest index at or below the bound
satisfying the predicate. -/
theorem rfindAux_some_iff (p : ℕ → Bool) (n i : ℕ) :
    rfindAux p n = some i ↔
      i ≤ n ∧ p i = true ∧ ∀ j, j ≤ n → p j = true → j ≤ i := by
  induction n with
  | zero =>
    by_cases hp : p 0 = true
    · rw [rfindAux, if_pos hp]
      constructor
      · intro h
        injection h with h'
        subst h'
        exact ⟨le_rfl, hp, fun j hj _ => hj⟩
      · rintro ⟨hi, -, -⟩
        have : i = 0 := Nat.le_zero.mp hi
        subst this
        rfl
    · rw [rfindAux, if_neg hp]
      constructor
      · intro h
        exact absurd h (Option.noConfusion)
      · rintro ⟨hi, hpi, -⟩
        have : i = 0 := Nat.le_zero.mp hi
        subst this
        exact absurd hpi hp
  | succ n ih =>
    by_cases hp : p (n + 1) = true
    · rw [rfindAux, if_pos hp]
      constructor
      · intro h
        injection h with h'
        subst h'
        exact ⟨le_rfl, hp, fun j hj _ => hj⟩
      · rintro ⟨hi, -, hmax⟩
        have h1 : n + 1 ≤ i := hmax (n + 1) le_rfl hp
        have : i = n + 1 := le_antisymm hi h1
        subst this
        rfl
    · rw [rfindAux, if_neg hp]
      rw [ih]
      constructor
      · rintro ⟨hi, hpi, hmax⟩
        refine ⟨hi.trans (Nat.le_succ n), hpi, fun j hj hpj => ?_⟩
        have : j ≤ n := by
          rcases Nat.lt_succ_iff_lt_or_eq.mp (Nat.lt_succ_of_le hj) with h | h
          · omega
          · subst h; exact absurd hpj hp
        exact hmax j this hpj
      · rintro ⟨hi, hpi, hmax⟩
        have hine : i ≠ n + 1 := fun h => absurd (h ▸ hpi) hp
        refine ⟨by omega, hpi, fun j hj hpj => hmax j (hj.trans (Nat.le_succ n)) hpj⟩

/-- The search `rfindAux` fails exactly when no index at or below the bound
satisfies the predicate. -/
theorem rfindAux_none_iff (p : ℕ → Bool) (n : ℕ) :
    rfindAux p n = none ↔ ∀ j, j ≤ n → ¬ p j = true := by
  induction n with
  | zero =>
    by_cases hp : p 0 = true
    · rw [rfindAux, if_pos hp]
      constructor
      · intro h
        exact absurd h (Option.noConfusion)
      · intro h
        exact absurd hp (h 0 le_rfl)
    · rw [rfindAux, if_neg hp]
      exact ⟨fun _ j hj => by
        have : j = 0 := Nat.le_zero.mp hj
        subst this
        exact hp, fun _ => rfl⟩
  | succ n ih =>
    by_cases hp : p (n + 1) = true
    · rw [rfindAux, if_pos hp]
      constructor
      · intro h
        exact absurd h (Option.noConfusion)
      · intro h
        exact absurd hp (h (n + 1) le_rfl)
    · rw [rfindAux, if_neg hp, ih]
      constructor
      · intro h j hj hpj
        rcases Nat.lt_succ_iff_lt_or_eq.mp (Nat.lt_succ_of_le hj) with h' | h'
        · exact h j (by omega) hpj
        · subst h'; exact hp hpj
      · intro h j hj
        exact h j (hj.trans (Nat.le_succ n))

/-- The downward search agrees with the upward filter-the-range scan. -/
theorem rfindAux_eq_getLast (p : ℕ → Bool) (n : ℕ) :
    rfindAux p n = ((List.range (n + 1)).filter p).getLast? := by
  induction n with
  | zero =>
    have hr : List.range (0 + 1) = [0] := rfl
    rw [hr]
    by_cases hp : p 0 = true
    · rw [rfindAux, if_pos hp]
      simp [hp]
    · rw [rfindAux, if_neg hp]
      simp [hp]
  | succ n ih =>
    rw [List.range_succ, List.filter_append]
    by_cases hp : p (n + 1) = true
    · rw [rfindAux, if_pos hp]
      have h1 : List.filter p [n + 1] = [n + 1] := by simp [hp]
      rw [h1, List.getLast?_concat]
    · rw [rfindAux, if_neg hp]
      have h1 : List.filter p [n + 1] = [] := by simp [hp]
      rw [h1, List.append_nil, ih]

/-- The value `-1` is a lower bound for the python-convention search result. -/
theorem rfindZ_neg_one_le (p : ℕ → Bool) (n : ℕ) : -1 ≤ rfindZ p n := by
  unfold rfindZ
  cases h : rfindAux p n with
  | none => simp
  | some i =>
    show (-1 : ℤ) ≤ (i : ℤ)
    have : (0 : ℤ) ≤ (i : ℤ) := Int.natCast_nonneg i
    omega

/-- Every matching index bounds the search result from below. -/
theorem rfindZ_ub (p : ℕ → Bool) (n j : ℕ) (hj : j ≤ n) (hpj : p j = true) :
    (j : ℤ) ≤ rfindZ p n := by
  unfold rfindZ
  cases h : rfindAux p n with
  | none => exact absurd hpj ((rfindAux_none_iff p n).mp h j hj)
  | some i =>
    show (j : ℤ) ≤ (i : ℤ)
    have := ((rfindAux_some_iff p n i).mp h).2.2 j hj hpj
    exact_mod_cast this

/-- Monotonicity of the search result in the predicate. -/
theorem rfindZ_mono (p q : ℕ → Bool) (n : ℕ)
    (hpq : ∀ i, p i = true → q i = true) : rfindZ p n ≤ rfindZ q n := by
  have h := rfindZ_neg_one_le q n
  cases hc : rfindAux p n with
  | none =>
    have h0 : rfindZ p n = -1 := by
      unfold rfindZ
      rw [hc]
      rfl
    rw [h0]
    exact h
  | some i =>
    obtain ⟨hi, hpi, -⟩ := (rfindAux_some_iff p n i).mp hc
    have h0 : rfindZ p n = (i : ℤ) := by
      unfold rfindZ
      rw [hc]
      rfl
    rw [h0]
    exact rfindZ_ub q n i hi (hpq i hpi)

/-- The chained `max` over four sentinel searches equals a single
search for the disjunction of the four sentinels. -/
theorem rfindZ_max4 (p1 p2 p3 p4 : ℕ → Bool) (n : ℕ) :
    max (max (max (rfindZ p1 n) (rfindZ p2 n)) (rfindZ p3 n)) (rfindZ p4 n)
      = rfindZ (fun i => p1 i || p2 i || p3 i || p4 i) n := by
  apply le_antisymm
  · apply max_le (max_le (max_le ?_ ?_) ?_) ?_ <;>
      · apply rfindZ_mono
        intro i hi
        simp [hi]
  · cases hc : rfindAux (fun i => p1 i || p2 i || p3 i || p4 i) n with
    | none =>
      have h1 : rfindZ (fun i => p1 i || p2 i || p3 i || p4 i) n = -1 := by
        unfold rfindZ
        rw [hc]
        rfl
      rw [h1]
      exact le_trans (rfindZ_neg_one_le p1 n)
        (le_trans (le_max_left _ _) (le_trans (le_max_left _ _) (le_max_left _ _)))
    | some m =>
      obtain ⟨hm, hpm, -⟩ := (rfindAux_some_iff _ n m).mp hc
      have h1 : rfindZ (fun i => p1 i || p2 i || p3 i || p4 i) n = (m : ℤ) := by
        unfold rfindZ
        rw [hc]
        rfl
      rw [h1]
      have hpm' : p1 m = true ∨ p2 m = true ∨ p3 m = true ∨ p4 m = true := by
        simpa [or_assoc] using hpm
      rcases hpm' with hpm | hpm | hpm | hpm
      · exact le_trans (rfindZ_ub p1 n m hm hpm)
          (le_trans (le_max_left _ _) (le_trans (le_max_left _ _) (le_max_left _ _)))
      · exact le_trans (rfindZ_ub p2 n m hm hpm)
          (le_trans (le_max_right _ _) (le_trans (le_max_left _ _) (le_max_left _ _)))
      · exact le_trans (rfindZ_ub p3 n m hm hpm)
          (le_trans (le_max_right _ _) (le_max_left _ _))
      · exact le_trans (rfindZ_ub p4 n m hm hpm) (le_max_right _ _)

/-- C6 (amended): the implemented truncation equals the amended rule —
cut at the last double-newline at a positive index in the capped
prefix, else at the last of the four code sentinels (`". "`, `"? "`,
`"! "`, `".\n"`) at a positive index, else hard-cut with an ellipsis;
text within the cap is unchanged. -/
theorem trim_component_eq_amended (text : List Char) (cap : ℕ) :
    trim_component text cap = amendedTrimComponent text cap := by
  have e1 : rfindI (text.take cap) ['\n', '\n']
      = lastZ (lastMatch (text.take cap) ['\n', '\n']) := by
    unfold rfindI rfindZ lastZ lastMatch
    rw [rfindAux_eq_getLast]
  have e2 : max (max (max (rfindI (text.take cap) ['.', ' '])
        (rfindI (text.take cap) ['?', ' ']))
        (rfindI (text.take cap) ['!', ' ']))
        (rfindI (text.take cap) ['.', '\n'])
      = lastZ (lastSentinel (text.take cap)) := by
    have h4 := rfindZ_max4
      (matchesAt (text.take cap) ['.', ' '])
      (matchesAt (text.take cap) ['?', ' '])
      (matchesAt (text.take cap) ['!', ' '])
      (matchesAt (text.take cap) ['.', '\n'])
      (text.take cap).length
    simp only [rfindI]
    rw [h4]
    unfold rfindZ lastZ lastSentinel
    rw [rfindAux_eq_getLast]
  simp only [trim_component, amendedTrimComponent]
  rw [e1, e2]

/-- C6 counterexample: in `"abcd?\nefghijkl"` with cap 10 the only
boundary before the cap is `'?'` followed by a newline; the claim's
rule cuts there, but the code does not recognize `"?\n"` and
hard-cuts with an ellipsis instead. -/
theorem trim_component_counterexample :
    trim_component "abcd?\nefghijkl".data 10 = "abcd?\nefgh...".data ∧
    claimedTrimComponent "abcd?\nefghijkl".data 10 = "abcd?".data ∧
    trim_component "abcd?\nefghijkl".data 10
      ≠ claimedTrimComponent "abcd?\nefghijkl".data 10 := by
  refine ⟨by decide, by decide, by decide⟩

/-! ## Token-budget trimming theorems -/

/-- Overwriting the same key twice keeps only the second write. -/
theorem tsSet_tsSet (res : TrimState) (n : String) (a b : List Char) :
    tsSet (tsSet res n a) n b = tsSet res n b := by
  induction res with
  | nil => rfl
  | cons p res ih =>
    by_cases h : p.1 = n <;> simp [tsSet, h] at ih ⊢ <;> exact ih

/-- Writing one key does not change reads of another. -/
theorem tsSet_get_ne (res : TrimState) (n m : String) (c : List Char)
    (h : m ≠ n) : tsGet (tsSet res n c) m = tsGet res m := by
  induction res with
  | nil => rfl
  | cons p rest ih =>
    show tsGet ((if p.1 = n then (p.1, c) else p) :: tsSet rest n c) m
      = tsGet (p :: rest) m
    by_cases hp : p.1 = n
    · rw [if_pos hp]
      show (if p.1 = m then some c else tsGet (tsSet rest n c) m)
        = if p.1 = m then some p.2 else tsGet rest m
      have hm : ¬ p.1 = m := fun hh => h (hh.symm.trans hp)
      rw [if_neg hm, if_neg hm, ih]
    · rw [if_neg hp]
      show (if p.1 = m then some p.2 else tsGet (tsSet rest n c) m)
        = if p.1 = m then some p.2 else tsGet rest m
      by_cases hm : p.1 = m
      · rw [if_pos hm, if_pos hm]
      · rw [if_neg hm, if_neg hm, ih]

/-- A pass that returns early does so under the budget. -/
theorem trimPass_stop (comps : List Component) (pr : ℕ) (res : TrimState)
    (h : (trimPass comps pr res).2 = true) :
    tsTotal (trimPass comps pr res).1 ≤ TOKEN_BUDGET := by
  induction comps generalizing res with
  | nil => simp [trimPass] at h
  | cons c rest ih =>
    by_cases hc : c.priority = pr ∧ c.content ≠ []
    · simp only [trimPass, if_pos hc] at h ⊢
      by_cases h1 : tsTotal (tsSet res c.name
          (trim_component c.content (c.content.length / 2))) ≤ TOKEN_BUDGET
      · rw [if_pos h1] at h ⊢
        exact h1
      · rw [if_neg h1] at h ⊢
        by_cases h2 : tsTotal (tsSet (tsSet res c.name
            (trim_component c.content (c.content.length / 2))) c.name
            (trim_component c.content (c.content.length / 4))) ≤ TOKEN_BUDGET
        · rw [if_pos h2] at h ⊢
          exact h2
        · rw [if_neg h2] at h ⊢
          exact ih _ h
    · simp only [trimPass, if_neg hc] at h ⊢
      exact ih _ h

/-- A pass either returns early or ends with every nonempty component
of its priority quarter-capped. -/
theorem trimPass_dichotomy (comps : List Component) (pr : ℕ) (res : TrimState) :
    (trimPass comps pr res).2 = true ∨
      (trimPass comps pr res).1 = quarterAll comps pr res := by
  induction comps generalizing res with
  | nil => right; rfl
  | cons c rest ih =>
    by_cases hc : c.priority = pr ∧ c.content ≠ []
    · simp only [trimPass, quarterAll, if_pos hc]
      by_cases h1 : tsTotal (tsSet res c.name
          (trim_component c.content (c.content.length / 2))) ≤ TOKEN_BUDGET
      · rw [if_pos h1]
        left
        rfl
      · rw [if_neg h1]
        by_cases h2 : tsTotal (tsSet (tsSet res c.name
            (trim_component c.content (c.content.length / 2))) c.name
            (trim_component c.content (c.content.length / 4))) ≤ TOKEN_BUDGET
        · rw [if_pos h2]
          left
          rfl
        · rw [if_neg h2, tsSet_tsSet]
          exact ih _
    · simp only [trimPass, quarterAll, if_neg hc]
      exact ih _

/-- A pass leaves every key it never writes unchanged. -/
theorem trimPass_get_preserved (comps : List Component) (pr : ℕ) (res : TrimState)
    (m : String)
    (h : ∀ c ∈ comps, c.priority = pr → c.content ≠ [] → c.name ≠ m) :
    tsGet (trimPass comps pr res).1 m = tsGet res m := by
  induction comps generalizing res with
  | nil => rfl
  | cons c rest ih =>
    by_cases hc : c.priority = pr ∧ c.content ≠ []
    · have hname : c.name ≠ m := h c (by simp) hc.1 hc.2
      have hmn : m ≠ c.name := fun hh => hname hh.symm
      simp only [trimPass, if_pos hc]
      by_cases h1 : tsTotal (tsSet res c.name
          (trim_component c.content (c.content.length / 2))) ≤ TOKEN_BUDGET
      · rw [if_pos h1]
        exact tsSet_get_ne _ _ _ _ hmn
      · rw [if_neg h1]
        by_cases h2 : tsTotal (tsSet (tsSet res c.name
            (trim_component c.content (c.content.length / 2))) c.name
            (trim_component c.content (c.content.length / 4))) ≤ TOKEN_BUDGET
        · rw [if_pos h2, tsSet_tsSet]
          exact tsSet_get_ne _ _ _ _ hmn
        · rw [if_neg h2]
          rw [ih _ (fun c' hc' => h c' (by simp [hc']))]
          rw [tsSet_tsSet]
          exact tsSet_get_ne _ _ _ _ hmn
    · simp only [trimPass, if_neg hc]
      exact ih _ (fun c' hc' => h c' (by simp [hc']))

/-- In the initial dict, a component's entry is its own content
(distinct names). -/
theorem tsGet_init (comps : List Component) (c : Component)
    (hnd : (comps.map Component.name).Nodup) (hc : c ∈ comps) :
    tsGet (comps.map (fun c => (c.name, c.content))) c.name = some c.content := by
  induction comps with
  | nil => cases hc
  | cons d rest ih =>
    have hnd' : d.name ∉ rest.map Component.name ∧ (rest.map Component.name).Nodup := by
      rw [List.map_cons, List.nodup_cons] at hnd
      exact hnd
    rcases List.mem_cons.mp hc with h | h
    · subst h
      simp [tsGet]
    · have hne : ¬ d.name = c.name := by
        intro hh
        exact hnd'.1 (hh ▸ List.mem_map_of_mem Component.name h)
      simp only [List.map_cons, tsGet, if_neg hne]
      exact ih hnd'.2 h

/-- Distinct names identify components. -/
theorem component_name_inj (comps : List Component)
    (hnd : (comps.map Component.name).Nodup)
    (c c' : Component) (hc : c ∈ comps) (hc' : c' ∈ comps)
    (h : c.name = c'.name) : c = c' := by
  induction comps with
  | nil => cases hc
  | cons d rest ih =>
    have hnd' : d.name ∉ rest.map Component.name ∧ (rest.map Component.name).Nodup := by
      rw [List.map_cons, List.nodup_cons] at hnd
      exact hnd
    rcases List.mem_cons.mp hc with h1 | h1 <;> rcases List.mem_cons.mp hc' with h2 | h2
    · rw [h1, h2]
    · subst h1
      exact absurd (h ▸ List.mem_map_of_mem Component.name h2) hnd'.1
    · subst h2
      exact absurd (h.symm ▸ List.mem_map_of_mem Component.name h1) hnd'.1
    · exact ih hnd'.2 h1 h2

/-- C5: the trimming step (1) returns every P1/P2 component
character-for-character unchanged, (2) meets the 12,000-token budget
whenever quarter-capping every nonempty P3/P4 component meets it —
the strongest trimming the algorithm may apply — and (3) logs the
over-budget warning exactly when the returned components still exceed
the budget (and still returns them rather than failing). -/
theorem trim_to_budget_spec (comps : List Component) (c : Component)
    (hnd : (comps.map Component.name).Nodup)
    (hc : c ∈ comps) (hp : c.priority = 1 ∨ c.priority = 2) :
    tsGet (trim_to_budget comps).1 c.name = some c.content ∧
    (tsTotal (maxTrimmed comps) ≤ TOKEN_BUDGET →
      tsTotal (trim_to_budget comps).1 ≤ TOKEN_BUDGET) ∧
    ((trim_to_budget comps).2 = true ↔ TOKEN_BUDGET < tsTotal (trim_to_budget comps).1) := by
  have hdisj : ∀ pr : ℕ, pr = 3 ∨ pr = 4 →
      ∀ c' ∈ comps, c'.priority = pr → c'.content ≠ [] → c'.name ≠ c.name := by
    intro pr hpr c' hc' hp' _ hname
    have he : c' = c := component_name_inj comps hnd c' c hc' hc hname
    subst he
    rcases hp with h | h <;> rcases hpr with h' | h' <;> omega
  have g4 : ∀ res, tsGet (trimPass comps 4 res).1 c.name = tsGet res c.name :=
    fun res => trimPass_get_preserved comps 4 res c.name (hdisj 4 (Or.inr rfl))
  have g3 : ∀ res, tsGet (trimPass comps 3 res).1 c.name = tsGet res c.name :=
    fun res => trimPass_get_preserved comps 3 res c.name (hdisj 3 (Or.inl rfl))
  have hget0 := tsGet_init comps c hnd hc
  simp only [trim_to_budget]
  by_cases h0 : tsTotal (comps.map fun c => (c.name, c.content)) ≤ TOKEN_BUDGET
  · rw [if_pos h0]
    dsimp only
    refine ⟨hget0, fun _ => h0, ?_⟩
    exact iff_of_false Bool.false_ne_true (by omega)
  · rw [if_neg h0]
    by_cases h4 : (trimPass comps 4 (comps.map fun c => (c.name, c.content))).2 = true
    · rw [if_pos h4]
      dsimp only
      have hstop := trimPass_stop comps 4 _ h4
      refine ⟨by rw [g4]; exact hget0, fun _ => hstop, ?_⟩
      exact iff_of_false Bool.false_ne_true (by omega)
    · rw [if_neg h4]
      have hq4 : (trimPass comps 4 (comps.map fun c => (c.name, c.content))).1
          = quarterAll comps 4 (comps.map fun c => (c.name, c.content)) :=
        (trimPass_dichotomy comps 4 _).resolve_left h4
      by_cases h3 : (trimPass comps 3
          (trimPass comps 4 (comps.map fun c => (c.name, c.content))).1).2 = true
      · rw [if_pos h3]
        dsimp only
        have hstop := trimPass_stop comps 3 _ h3
        refine ⟨by rw [g3, g4]; exact hget0, fun _ => hstop, ?_⟩
        exact iff_of_false Bool.false_ne_true (by omega)
      · rw [if_neg h3]
        dsimp only
        have hq3 : (trimPass comps 3
            (trimPass comps 4 (comps.map fun c => (c.name, c.content))).1).1
            = maxTrimmed comps := by
          rw [(trimPass_dichotomy comps 3 _).resolve_left h3, hq4]
          rfl
        refine ⟨by rw [g3, g4]; exact hget0, ?_, ?_⟩
        · intro hmax
          rw [hq3]
          exact hmax
        · simp only [decide_eq_true_eq]

/-- C5 witness: a two-component list (P1 orientation, P4 doc context)
under budget — the P1 entry is returned unchanged, the budget
implication holds, and no warning is logged. -/
theorem trim_to_budget_spec_witness :
    tsGet (trim_to_budget [⟨"orientation", 1, "hello".data⟩,
        ⟨"doc_context", 4, "world!".data⟩]).1 "orientation" = some "hello".data ∧
    (tsTotal (maxTrimmed [⟨"orientation", 1, "hello".data⟩,
        ⟨"doc_context", 4, "world!".data⟩]) ≤ TOKEN_BUDGET →
      tsTotal (trim_to_budget [⟨"orientation", 1, "hello".data⟩,
        ⟨"doc_context", 4, "world!".data⟩]).1 ≤ TOKEN_BUDGET) ∧
    ((trim_to_budget [⟨"orientation", 1, "hello".data⟩,
        ⟨"doc_context", 4, "world!".data⟩]).2 = true ↔
      TOKEN_BUDGET < tsTotal (trim_to_budget [⟨"orientation", 1, "hello".data⟩,
        ⟨"doc_context", 4, "world!".data⟩]).1) :=
  trim_to_budget_spec
    [⟨"orientation", 1, "hello".data⟩, ⟨"doc_context", 4, "world!".data⟩]
    ⟨"orientation", 1, "hello".data⟩
    (by decide) (List.mem_cons_self _ _) (Or.inl rfl)


/-! ## Session store theorems -/

/-- C3: resolving an expired active session (matching token and IP)
returns null and transitions the row to `expired` with
`outcome=abandoned` and `ended_at=now`; resolving again returns null
and leaves the store unchanged (the transition is idempotent).  The
token is assumed to identify the row. -/
theorem get_session_expired (store : List Conversation) (token ip : String)
    (now : ℤ) (r : Conversation)
    (hfind : store.find? (fun c =>
        decide (c.session_token = token) && decide (c.state = "active")) = some r)
    (hip : r.ip_address = ip)
    (hexp : r.expires_at < now)
    (htok : ∀ c ∈ store, c.session_token = token → c.id = r.id) :
    get_session store token ip now =
      (none, store.map (fun c =>
        if c.id = r.id then
          { c with state := "expired", outcome := some "abandoned", ended_at := some now }
        else c)) ∧
    { r with state := "expired", outcome := some "abandoned", ended_at := some now }
      ∈ (get_session store token ip now).2 ∧
    get_session (get_session store token ip now).2 token ip now
      = (none, (get_session store token ip now).2) := by
  have h1 : get_session store token ip now =
      (none, store.map (fun c =>
        if c.id = r.id then
          { c with state := "expired", outcome := some "abandoned", ended_at := some now }
        else c)) := by
    unfold get_session
    rw [hfind]
    dsimp only
    rw [if_neg (fun hne => hne hip), if_pos hexp]
  have hmem : r ∈ store := List.mem_of_find?_eq_some hfind
  have hfind2 : (store.map (fun c =>
      if c.id = r.id then
        { c with state := "expired", outcome := some "abandoned", ended_at := some now }
      else c)).find? (fun c =>
        decide (c.session_token = token) && decide (c.state = "active")) = none := by
    rw [List.find?_eq_none]
    intro x hx
    rcases List.mem_map.mp hx with ⟨c, hc, rfl⟩
    by_cases hid : c.id = r.id
    · rw [if_pos hid]
      simp
    · rw [if_neg hid]
      simp only [Bool.and_eq_true, decide_eq_true_eq, not_and]
      intro htk _
      exact hid (htok c hc htk)
  refine ⟨h1, ?_, ?_⟩
  · rw [h1]
    exact List.mem_map.mpr ⟨r, hmem, by rw [if_pos rfl]⟩
  · rw [h1]
    unfold get_session
    rw [hfind2]

/-- C3 witness: a store holding one active conversation whose
`expires_at` has passed; resolving returns null and rewrites the row,
and resolving again is a no-op. -/
theorem get_session_expired_witness :
    get_session [⟨1, "tok", "1.2.3.4", 0, "active", none, 10, none⟩] "tok" "1.2.3.4" 20 =
      (none, [⟨1, "tok", "1.2.3.4", 0, "expired", some "abandoned", 10, some 20⟩]) ∧
    (⟨1, "tok", "1.2.3.4", 0, "expired", some "abandoned", 10, some 20⟩ : Conversation)
      ∈ (get_session [⟨1, "tok", "1.2.3.4", 0, "active", none, 10, none⟩]
          "tok" "1.2.3.4" 20).2 ∧
    get_session (get_session [⟨1, "tok", "1.2.3.4", 0, "active", none, 10, none⟩]
        "tok" "1.2.3.4" 20).2 "tok" "1.2.3.4" 20
      = (none, (get_session [⟨1, "tok", "1.2.3.4", 0, "active", none, 10, none⟩]
          "tok" "1.2.3.4" 20).2) := by
  have h := get_session_expired
    [⟨1, "tok", "1.2.3.4", 0, "active", none, 10, none⟩] "tok" "1.2.3.4" 20
    ⟨1, "tok", "1.2.3.4", 0, "active", none, 10, none⟩
    (by decide) rfl (by decide) (by decide)
  exact ⟨h.1, h.2.1, h.2.2⟩

/-! ## Orchestrator theorems -/

/-- C1: in signals mode, a terminating preflight result makes the
orchestrator emit exactly the trace: store the user message, end the
conversation as `terminated`/`terminated`, and emit one `done` event
with `{"terminated": true}` — no primary-model call, no token events;
and the session-store `end` transition sets `state` and `outcome` on
the conversation row. -/
theorem process_message_terminate (inp : PMInput) (o : PMOracle)
    (p : PreflightResult) (store : List Conversation) (conv : Conversation)
    (now : ℤ) (m : String) (d : List (String × JVal))
    (hmode : inp.mode = "signals")
    (hpf : o.preflight = .ok p)
    (hterm : p.terminate = true)
    (hmem : conv ∈ store) :
    process_message inp o =
      [Ev.storeMsg "user" inp.message,
       Ev.endSess "terminated" (some "terminated"),
       Ev.sse "done" [("terminated", JVal.jb true)]] ∧
    Ev.llmStream m ∉ process_message inp o ∧
    Ev.sse "token" d ∉ process_message inp o ∧
    { conv with state := "terminated", outcome := some "terminated", ended_at := some now }
      ∈ end_session store conv.id "terminated" (some "terminated") now := by
  have htrace : process_message inp o =
      [Ev.storeMsg "user" inp.message,
       Ev.endSess "terminated" (some "terminated"),
       Ev.sse "done" [("terminated", JVal.jb true)]] := by
    unfold process_message
    rw [hpf]
    dsimp only
    have hg : ¬ inp.mode = "gate" := by
      rw [hmode]
      decide
    rw [if_neg hg, if_pos hterm]
  refine ⟨htrace, ?_, ?_, ?_⟩
  · rw [htrace]
    simp
  · rw [htrace]
    simp
  · unfold end_session
    exact List.mem_map.mpr ⟨conv, hmem, by rw [if_pos rfl]⟩


/-- C1 witness: a concrete signals-mode run whose preflight result
terminates; the trace is exactly store-user / end-terminated / done,
with no stream call and no token event, and the store transition
marks the conversation terminated. -/
theorem process_message_terminate_witness :
    process_message ⟨"hi", ⟨none, []⟩, 20, "signals", ⟨5, 3, "gemini/g"⟩⟩
        ⟨.ok ⟨none, true, false, [], "active"⟩, 1, [], true⟩ =
      [Ev.storeMsg "user" "hi",
       Ev.endSess "terminated" (some "terminated"),
       Ev.sse "done" [("terminated", JVal.jb true)]] ∧
    Ev.llmStream "gemini/g" ∉ process_message
      ⟨"hi", ⟨none, []⟩, 20, "signals", ⟨5, 3, "gemini/g"⟩⟩
      ⟨.ok ⟨none, true, false, [], "active"⟩, 1, [], true⟩ ∧
    Ev.sse "token" [] ∉ process_message
      ⟨"hi", ⟨none, []⟩, 20, "signals", ⟨5, 3, "gemini/g"⟩⟩
      ⟨.ok ⟨none, true, false, [], "active"⟩, 1, [], true⟩ ∧
    (⟨1, "tok", "ip", 0, "terminated", some "terminated", 100, some 5⟩ : Conversation)
      ∈ end_session [⟨1, "tok", "ip", 0, "active", none, 100, none⟩]
          1 "terminated" (some "terminated") 5 := by
  have h := process_message_terminate
    ⟨"hi", ⟨none, []⟩, 20, "signals", ⟨5, 3, "gemini/g"⟩⟩
    ⟨.ok ⟨none, true, false, [], "active"⟩, 1, [], true⟩
    ⟨none, true, false, [], "active"⟩
    [⟨1, "tok", "ip", 0, "active", none, 100, none⟩]
    ⟨1, "tok", "ip", 0, "active", none, 100, none⟩
    5 "gemini/g" [] rfl rfl rfl (List.mem_cons_self _ _)
  exact ⟨h.1, h.2.1, h.2.2.1, h.2.2.2⟩

/-! ## LLM client theorems -/

/-- C8 (amended): when a streaming call on the configured primary
model raises, the client makes exactly one further provider call — a
non-streaming `complete` on the configured fallback model with the
same parameters (no response format) — and appends the fallback's
result as one extra delta when it is nonempty (an empty result yields
no delta); if the fallback call also raises, the original exception
propagates.  For any other model (in particular the preflight
classifier model) there is no fallback: a failed stream propagates
after its deltas, and a failed non-streaming call propagates
directly. -/
theorem stream_fallback (st : LlmSettings) (o : LlmOracle) (p : LlmParams)
    (e e2 : String) (m : String) (rf : Option String)
    (hne : st.spark_fallback_model ≠ st.spark_primary_model)
    (herr : o.astream_err = some e)
    (hm : m ≠ st.spark_primary_model) :
    (stream st o st.spark_primary_model p).2
      = [LlmCall.streamCall st.spark_primary_model p,
         LlmCall.completeCall st.spark_fallback_model p none] ∧
    (stream st o st.spark_primary_model p).1
      = (match o.acomplete st.spark_fallback_model with
         | .ok r =>
           (o.astream_chunks.filter (fun c => c ≠ "") ++ (if r = "" then [] else [r]), none)
         | .error _ => (o.astream_chunks.filter (fun c => c ≠ ""), some e)) ∧
    stream st o m p
      = ((o.astream_chunks.filter (fun c => c ≠ ""), some e), [LlmCall.streamCall m p]) ∧
    (o.acomplete m = .error e2 →
      complete st o m p rf = (.error e2, [LlmCall.completeCall m p rf])) := by
  have hfb : get_fallback st st.spark_primary_model = some st.spark_fallback_model := by
    unfold get_fallback
    rw [if_pos rfl]
  have hfbm : get_fallback st m = none := by
    unfold get_fallback
    rw [if_neg hm]
  have hfbf : get_fallback st st.spark_fallback_model = none := by
    unfold get_fallback
    rw [if_neg hne]
  have h3 : stream st o m p
      = ((o.astream_chunks.filter (fun c => c ≠ ""), some e), [LlmCall.streamCall m p]) := by
    unfold stream
    rw [herr]
    dsimp only
    rw [hfbm]
  have h4 : o.acomplete m = .error e2 →
      complete st o m p rf = (.error e2, [LlmCall.completeCall m p rf]) := by
    intro hc
    unfold complete
    rw [hc]
    dsimp only
    rw [hfbm]
  cases hc : o.acomplete st.spark_fallback_model with
  | ok r =>
    have hcomp : complete st o st.spark_fallback_model p none
        = (.ok r, [LlmCall.completeCall st.spark_fallback_model p none]) := by
      unfold complete
      rw [hc]
    have hstream : stream st o st.spark_primary_model p
        = ((o.astream_chunks.filter (fun c => c ≠ "") ++ (if r = "" then [] else [r]), none),
           [LlmCall.streamCall st.spark_primary_model p,
            LlmCall.completeCall st.spark_fallback_model p none]) := by
      unfold stream
      rw [herr]
      dsimp only
      rw [hfb]
      dsimp only
      rw [hcomp]
    rw [hstream]
    exact ⟨rfl, rfl, h3, h4⟩
  | error e3 =>
    have hcomp : complete st o st.spark_fallback_model p none
        = (.error e3, [LlmCall.completeCall st.spark_fallback_model p none]) := by
      unfold complete
      rw [hc]
      dsimp only
      rw [hfbf]
    have hstream : stream st o st.spark_primary_model p
        = ((o.astream_chunks.filter (fun c => c ≠ ""), some e),
           [LlmCall.streamCall st.spark_primary_model p,
            LlmCall.completeCall st.spark_fallback_model p none]) := by
      unfold stream
      rw [herr]
      dsimp only
      rw [hfb]
      dsimp only
      rw [hcomp]
    rw [hstream]
    exact ⟨rfl, rfl, h3, h4⟩

/-- C8 witness: concrete settings and provider behaviour exercising
the amended theorem — a nonempty fallback result is delivered as one
delta after the filtered stream deltas, with exactly one fallback
call; for the non-primary model `"q"` the stream error propagates and
`complete` raises directly. -/
theorem stream_fallback_witness :
    (stream ⟨"p", "f"⟩
        ⟨fun mdl => if mdl = "f" then .ok "ok!" else .error "x", ["a", "", "b"], some "x"⟩
        "p" c8params).2
      = [LlmCall.streamCall "p" c8params, LlmCall.completeCall "f" c8params none] ∧
    (stream ⟨"p", "f"⟩
        ⟨fun mdl => if mdl = "f" then .ok "ok!" else .error "x", ["a", "", "b"], some "x"⟩
        "p" c8params).1
      = (["a", "b", "ok!"], none) ∧
    stream ⟨"p", "f"⟩
        ⟨fun mdl => if mdl = "f" then .ok "ok!" else .error "x", ["a", "", "b"], some "x"⟩
        "q" c8params
      = ((["a", "b"], some "x"), [LlmCall.streamCall "q" c8params]) ∧
    complete ⟨"p", "f"⟩
        ⟨fun mdl => if mdl = "f" then .ok "ok!" else .error "x", ["a", "", "b"], some "x"⟩
        "q" c8params none
      = (.error "x", [LlmCall.completeCall "q" c8params none]) := by
  have h := stream_fallback ⟨"p", "f"⟩
    ⟨fun mdl => if mdl = "f" then .ok "ok!" else .error "x", ["a", "", "b"], some "x"⟩
    c8params "x" "x" "q" none (by decide) rfl (by decide)
  refine ⟨h.1, ?_, h.2.2.1, h.2.2.2 rfl⟩
  rw [h.2.1]
  rfl

/-- C8 counterexample: the claim as stated says the fallback's entire
result is yielded as a single delta; with an empty fallback result
the code yields no delta at all (`if result:` guards the yield). -/
theorem stream_fallback_counterexample :
    c8oracle.astream_err = some "boom" ∧
    c8oracle.acomplete c8st.spark_fallback_model = .ok "" ∧
    (stream c8st c8oracle c8st.spark_primary_model c8params).1.1 = [] ∧
    (stream c8st c8oracle c8st.spark_primary_model c8params).1.1 ≠ [""] := by
  have h0 : (stream c8st c8oracle c8st.spark_primary_model c8params).1.1 = [] := rfl
  refine ⟨rfl, rfl, h0, ?_⟩
  rw [h0]
  decide


/-! ## SSE terminality -/

@[simp] theorem sseOf_nil : sseOf [] = [] := rfl

@[simp] theorem sseOf_cons_sse (n : String) (d : List (String × JVal)) (t : List Ev) :
    sseOf (Ev.sse n d :: t) = (n, d) :: sseOf t := rfl

@[simp] theorem sseOf_cons_storeMsg (r c : String) (t : List Ev) :
    sseOf (Ev.storeMsg r c :: t) = sseOf t := rfl

@[simp] theorem sseOf_cons_storeAssistant (s : String) (t : List Ev) :
    sseOf (Ev.storeAssistantNormalized s :: t) = sseOf t := rfl

@[simp] theorem sseOf_cons_endSess (s : String) (oc : Option String) (t : List Ev) :
    sseOf (Ev.endSess s oc :: t) = sseOf t := rfl

@[simp] theorem sseOf_cons_incTurn (t : List Ev) :
    sseOf (Ev.incTurn :: t) = sseOf t := rfl

@[simp] theorem sseOf_cons_incBoundary (t : List Ev) :
    sseOf (Ev.incBoundary :: t) = sseOf t := rfl

@[simp] theorem sseOf_cons_llmStream (m : String) (t : List Ev) :
    sseOf (Ev.llmStream m :: t) = sseOf t := rfl

@[simp] theorem sseOf_cons_analytics (a : String) (t : List Ev) :
    sseOf (Ev.analytics a :: t) = sseOf t := rfl

@[simp] theorem sseOf_append (a b : List Ev) : sseOf (a ++ b) = sseOf a ++ sseOf b :=
  List.filterMap_append a b _

/-- The SSE projection of a run of token events. -/
theorem sseOf_token_map (l : List String) (f : String → List (String × JVal)) :
    sseOf (l.map (fun w => Ev.sse "token" (f w))) = l.map (fun w => ("token", f w)) := by
  induction l with
  | nil => rfl
  | cons w l ih => simp [ih]

@[simp] theorem sseOf_token_events (s : String) :
    sseOf (token_events s)
      = (s.splitOn " ").map (fun w => ("token", [("text", JVal.js (w ++ " "))])) :=
  sseOf_token_map _ _

@[simp] theorem sseOf_chunk_tokens (l : List String) :
    sseOf (l.map (fun c => Ev.sse "token" [("text", JVal.js c)]))
      = l.map (fun c => ("token", [("text", JVal.js c)])) :=
  sseOf_token_map _ _

/-- Token-event projections never contain a terminal name. -/
theorem token_pre_nonterminal (l : List String) (f : String → List (String × JVal)) :
    ∀ e ∈ l.map (fun w => (("token" : String), f w)), isTerminalName e.1 = false := by
  intro e he
  rcases List.mem_map.mp he with ⟨w, -, rfl⟩
  rfl

/-- Terminality of the shared tail pipeline: its SSE projection ends
in exactly one terminal event — `error` exactly when the stream was
invoked and failed — preceded only by non-terminal events. -/
theorem after_safety_terminality (inp : PMInput) (o : PMOracle) (p : PreflightResult) :
    ∃ pre d,
      sseOf (after_safety inp o p) =
        pre ++ [((if decide (Ev.llmStream inp.settings.spark_primary_model ∈ after_safety inp o p)
            && !o.stream_ok then "error" else "done"), d)] ∧
      ∀ e ∈ pre, isTerminalName e.1 = false := by
  by_cases hrem : (inp.max_turns : ℤ) - (o.new_turn_count : ℤ) ≤ 0
  · have htr : after_safety inp o p =
        Ev.incTurn ::
          ([Ev.storeMsg "user" inp.message,
            Ev.storeMsg "assistant" (inp.cfg.lead_capture_prompt.getD farewell_default)]
            ++ token_events (inp.cfg.lead_capture_prompt.getD farewell_default)
            ++ [Ev.endSess "completed" (some "completed"),
                Ev.sse "done" [("turns_remaining", JVal.ji 0)]]) := by
      unfold after_safety
      dsimp only
      rw [if_pos hrem]
    have hno : Ev.llmStream inp.settings.spark_primary_model ∉ after_safety inp o p := by
      rw [htr]
      simp [token_events]
    refine ⟨((inp.cfg.lead_capture_prompt.getD farewell_default).splitOn " ").map
        (fun w => ("token", [("text", JVal.js (w ++ " "))])),
      [("turns_remaining", JVal.ji 0)], ?_, token_pre_nonterminal _ _⟩
    rw [decide_eq_false hno, Bool.false_and, if_neg Bool.false_ne_true, htr]
    simp
  · have htr : after_safety inp o p =
        Ev.incTurn ::
          ([Ev.storeMsg "user" inp.message, Ev.llmStream inp.settings.spark_primary_model]
            ++ o.stream_chunks.map (fun c => Ev.sse "token" [("text", JVal.js c)])
            ++ (if o.stream_ok then
                  [Ev.storeAssistantNormalized (String.join o.stream_chunks)]
                  ++ (if should_wind_down inp.settings o.new_turn_count inp.max_turns then
                        [Ev.sse "wind_down" [("turns_remaining",
                          JVal.ji ((inp.max_turns : ℤ) - (o.new_turn_count : ℤ)))]]
                      else [])
                  ++ [Ev.analytics (if o.new_turn_count = 1 then "first_message" else "message")]
                  ++ (if p.in_scope then [] else [Ev.analytics "out_of_scope"])
                  ++ [Ev.sse "done" [("turns_remaining",
                        JVal.ji ((inp.max_turns : ℤ) - (o.new_turn_count : ℤ)))]]
                else [Ev.sse "error" [("message", JVal.js "I hit a snag. Please try again.")]])) := by
      unfold after_safety
      dsimp only
      rw [if_neg hrem]
    have hyes : Ev.llmStream inp.settings.spark_primary_model ∈ after_safety inp o p := by
      rw [htr]
      simp
    rw [decide_eq_true hyes, Bool.true_and]
    cases hok : o.stream_ok with
    | false =>
      rw [hok] at htr
      refine ⟨o.stream_chunks.map (fun c => ("token", [("text", JVal.js c)])),
        [("message", JVal.js "I hit a snag. Please try again.")], ?_, token_pre_nonterminal _ _⟩
      rw [show (!false) = true from rfl, if_pos rfl, htr]
      simp
    | true =>
      rw [hok] at htr
      rw [show (!true) = false from rfl, if_neg Bool.false_ne_true]
      by_cases hwd : should_wind_down inp.settings o.new_turn_count inp.max_turns = true
      · refine ⟨o.stream_chunks.map (fun c => ("token", [("text", JVal.js c)]))
            ++ [("wind_down", [("turns_remaining",
                JVal.ji ((inp.max_turns : ℤ) - (o.new_turn_count : ℤ)))])],
          [("turns_remaining", JVal.ji ((inp.max_turns : ℤ) - (o.new_turn_count : ℤ)))],
          ?_, ?_⟩
        · rw [htr]
          by_cases hsc : p.in_scope = true <;> simp [hwd, hsc]
        · intro e he
          rcases List.mem_append.mp he with h | h
          · exact token_pre_nonterminal _ _ e h
          · rw [List.mem_singleton] at h
            rw [h]
            rfl
      · refine ⟨o.stream_chunks.map (fun c => ("token", [("text", JVal.js c)])),
          [("turns_remaining", JVal.ji ((inp.max_turns : ℤ) - (o.new_turn_count : ℤ)))],
          ?_, token_pre_nonterminal _ _⟩
        rw [htr]
        by_cases hsc : p.in_scope = true <;> simp [hwd, hsc]

/-- C7: every orchestrator run's SSE projection ends with exactly one
terminal event, preceded only by non-terminal events; the terminal is
`error` exactly when preflight failed entirely or the primary stream
was invoked and failed, and `done` otherwise. -/
theorem sse_terminality (inp : PMInput) (o : PMOracle) :
    ∃ pre d,
      sseOf (process_message inp o) =
        pre ++ [((if exceptIsError o.preflight ||
            (decide (Ev.llmStream inp.settings.spark_primary_model ∈ process_message inp o) &&
              !o.stream_ok) then "error" else "done"), d)] ∧
      ∀ e ∈ pre, isTerminalName e.1 = false := by
  cases hpf : o.preflight with
  | error err =>
    have htr : process_message inp o =
        [Ev.sse "error" [("message", JVal.js "Something went wrong. Please try again.")]] := by
      unfold process_message
      rw [hpf]
    refine ⟨[], [("message", JVal.js "Something went wrong. Please try again.")],
      ?_, by simp⟩
    rw [show (exceptIsError (Except.error err) ||
        (decide (Ev.llmStream inp.settings.spark_primary_model ∈ process_message inp o) &&
          !o.stream_ok)) = true from rfl, if_pos rfl, htr]
    rfl
  | ok p =>
    rw [show exceptIsError (Except.ok p) = false from rfl, Bool.false_or]
    by_cases hmode : inp.mode = "gate"
    · by_cases hgate : p.boundary_signal ≠ none ∨ p.terminate = true
      · have htr : process_message inp o =
            [Ev.storeMsg "user" inp.message,
             Ev.storeMsg "assistant" (deflection_response (some (tier_of p)) inp.cfg)]
            ++ token_events (deflection_response (some (tier_of p)) inp.cfg)
            ++ [Ev.analytics "jailbreak_blocked"]
            ++ (if p.terminate then [Ev.endSess "terminated" (some "terminated")] else [])
            ++ [Ev.sse "done" []] := by
          unfold process_message
          rw [hpf]
          dsimp only
          rw [if_pos hmode, if_pos hgate]
        have hno : Ev.llmStream inp.settings.spark_primary_model ∉ process_message inp o := by
          rw [htr]
          by_cases ht : p.terminate = true <;> simp [token_events, ht]
        refine ⟨((deflection_response (some (tier_of p)) inp.cfg).splitOn " ").map
            (fun w => ("token", [("text", JVal.js (w ++ " "))])),
          [], ?_, token_pre_nonterminal _ _⟩
        rw [decide_eq_false hno, Bool.false_and, if_neg Bool.false_ne_true, htr]
        by_cases ht : p.terminate = true <;> simp [ht]
      · have htr : process_message inp o = after_safety inp o p := by
          unfold process_message
          rw [hpf]
          dsimp only
          rw [if_pos hmode, if_neg hgate]
        obtain ⟨pre, d, hA, hB⟩ := after_safety_terminality inp o p
        refine ⟨pre, d, ?_, hB⟩
        rw [htr]
        exact hA
    · by_cases hterm : p.terminate = true
      · have htr : process_message inp o =
            [Ev.storeMsg "user" inp.message,
             Ev.endSess "terminated" (some "terminated"),
             Ev.sse "done" [("terminated", JVal.jb true)]] := by
          unfold process_message
          rw [hpf]
          dsimp only
          rw [if_neg hmode, if_pos hterm]
        have hno : Ev.llmStream inp.settings.spark_primary_model ∉ process_message inp o := by
          rw [htr]
          simp
        refine ⟨[], [("terminated", JVal.jb true)], ?_, by simp⟩
        rw [decide_eq_false hno, Bool.false_and, if_neg Bool.false_ne_true, htr]
        rfl
      · have htr : process_message inp o =
            (if p.boundary_signal.isSome then [Ev.incBoundary] else [])
              ++ after_safety inp o p := by
          unfold process_message
          rw [hpf]
          dsimp only
          rw [if_neg hmode, if_neg hterm]
        obtain ⟨pre, d, hA, hB⟩ := after_safety_terminality inp o p
        refine ⟨pre, d, ?_, hB⟩
        have hsse : sseOf (process_message inp o) = sseOf (after_safety inp o p) := by
          rw [htr]
          by_cases hbs : p.boundary_signal.isSome <;> simp [hbs]
        have hmi : (Ev.llmStream inp.settings.spark_primary_model ∈ process_message inp o)
            ↔ Ev.llmStream inp.settings.spark_primary_model ∈ after_safety inp o p := by
          rw [htr]
          by_cases hbs : p.boundary_signal.isSome <;> simp [hbs]
        rw [hsse, decide_eq_decide.mpr hmi]
        exact hA

end Spark
